import Mathlib

/-!
# Verification of the gossdp SSDP engine (src/ssdp.go)

A shallow embedding of the pure/protocol core of `ssdp.go`: the registry
(`advertisableServers`, `deviceIdToServer`, `listenSearchTargets`), the
message parsing functions (`notify`, `parseResponse`, `inMSearch`), and the
lifecycle operations (`AdvertiseServer`, `RemoveServer`, `ListenFor`,
`Stop`).

Modelling conventions:
* Go maps are modelled as association lists with distinct keys
  (`mapLookup` / `mapInsert` / `mapDelete`). Go map iteration order is
  unspecified; we iterate in list order, and all statements proved below are
  order-insensitive (membership and counts).
* Go strings indexed or sliced by byte are modelled as `List Char`; the
  inputs in scope are ASCII, where bytes and characters coincide, and
  `strings.Split` on the one-byte separator `:` agrees with character-level
  splitting on arbitrary UTF-8 input.
* Go `int` (via `strconv.ParseInt(s, 10, 0)`) is modelled as a 64-bit
  signed integer: values outside `[-2^63, 2^63-1]` produce a range error
  with the clamped value, exactly as `strconv.ParseInt` documents.
* Pointer mutation (timer stop flags) is recorded on the `deviceIdToServer`
  view of an advertisement, which is the view `Stop`/`advertiseClosed`
  iterate; the bucket index holds aliases of the same objects in Go.
* Fallible code (Go panics on out-of-range slices) returns `Option`:
  `none` is a panic.
-/

namespace Gossdp

/-! ## Go map model: association lists with distinct keys -/

/-- Lookup in a Go map modelled as an association list (first binding wins;
with distinct keys there is at most one). -/
def mapLookup {α : Type} (m : List (String × α)) (k : String) : Option α :=
  match m with
  | [] => none
  | (k', v) :: rest => if k' = k then some v else mapLookup rest k

/-- `m[k] = v` in Go: replace an existing binding in place, else append. -/
def mapInsert {α : Type} (m : List (String × α)) (k : String) (v : α) :
    List (String × α) :=
  match m with
  | [] => [(k, v)]
  | (k', v') :: rest =>
    if k' = k then (k, v) :: rest else (k', v') :: mapInsert rest k v

/-- `delete(m, k)` in Go: remove the binding for `k` (at most one exists). -/
def mapDelete {α : Type} (m : List (String × α)) (k : String) :
    List (String × α) :=
  match m with
  | [] => []
  | (k', v') :: rest =>
    if k' = k then rest else (k', v') :: mapDelete rest k

/-! ## String helpers used by the parser -/

/-- ASCII lower-casing, the fragment of Go `strings.ToLower` /
`textproto` header canonicalisation relevant to the ASCII header values and
keys in scope. -/
def asciiLowerChar (c : Char) : Char :=
  if 'A' ≤ c ∧ c ≤ 'Z' then Char.ofNat (c.toNat + 32) else c

def asciiLower (s : String) : String :=
  ⟨s.data.map asciiLowerChar⟩

/-- `http.Header.Get`: case-insensitive lookup (via MIME canonicalisation of
ASCII keys), returning `""` when the header is absent. -/
def headerGet (hs : List (String × String)) (k : String) : String :=
  match hs with
  | [] => ""
  | (k', v) :: rest => if asciiLower k' = asciiLower k then v else headerGet rest k

/-- Go `strings.Split(s, ":")` at the character level (the separator is a
single ASCII byte, so byte- and character-level splitting agree). -/
def splitOnChar (sep : Char) : List Char → List (List Char)
  | [] => [[]]
  | c :: rest =>
    if c = sep then
      [] :: splitOnChar sep rest
    else
      match splitOnChar sep rest with
      | [] => [[c]]
      | h :: t => (c :: h) :: t

/-- Device-id extraction shared verbatim by `notify` (ssdp.go:415-423) and
`parseResponse` (ssdp.go:501-510): split the USN on `:`; with more than two
parts and first part `uuid`, the id is the second part, else `""`. -/
def deviceIdFromUsn (usn : String) : String :=
  if usn.length > 0 then
    let parts := splitOnChar ':' usn.data
    if parts.length > 2 then
      if parts.getD 0 [] = "uuid".data then ⟨parts.getD 1 []⟩ else ""
    else ""
  else ""

/-! ## `max-age` extraction (regex `.*max-age=([0-9]+).*`, ssdp.go:141) -/

def isDigitChar (c : Char) : Bool := '0' ≤ c ∧ c ≤ '9'

/-- Numeric value of a digit string (most significant first). -/
def digitsToNat (ds : List Char) : Nat :=
  ds.foldl (fun acc c => 10 * acc + (c.toNat - '0'.toNat)) 0

/-- All capture groups of `.*max-age=([0-9]+).*` in order of occurrence: at
each position where the literal `max-age=` is followed by at least one digit,
the maximal digit run after the `=`. The leading greedy `.*` makes the
regexp engine use the LAST such occurrence, i.e. the last element of this
list; the greedy `([0-9]+)` captures the maximal digit run there. -/
def maxAgeHere (l : List Char) : List (List Char) :=
  if ("max-age=".data).isPrefixOf l then
    let ds := (l.drop 8).takeWhile isDigitChar
    if ds = [] then [] else [ds]
  else []

def maxAgeCaptures : List Char → List (List Char)
  | [] => []
  | c :: rest => maxAgeHere (c :: rest) ++ maxAgeCaptures rest

/-- Clamping of an out-of-range value to the extreme of the given sign, as
`strconv.ParseInt` documents for `ErrRange`. -/
def goParseIntClamp (v : Int) : Int × Bool :=
  if v < -(2 ^ 63) then (-(2 ^ 63), true)
  else if v > 2 ^ 63 - 1 then (2 ^ 63 - 1, true)
  else (v, false)

def goParseIntAux (neg : Bool) (body : List Char) : Int × Bool :=
  if body = [] ∨ ¬ body.all isDigitChar then (0, true)
  else goParseIntClamp
    (if neg then -(digitsToNat body : Int) else (digitsToNat body : Int))

/-- `strconv.ParseInt(s, 10, 0)` with `int` = 64 bits: returns
`(value, hadError)`. Syntax errors yield `(0, true)`; range errors yield the
clamped extreme with `true`; otherwise `(v, false)`. -/
def goParseInt (s : String) : Int × Bool :=
  goParseIntAux (s.data.headD ' ' = '-')
    (if s.data.headD ' ' = '+' ∨ s.data.headD ' ' = '-' then s.data.tail else s.data)

/-- `max-age` extraction used verbatim in `notify` (ssdp.go:429-438) and
`parseResponse` (ssdp.go:491-500): `-1` when `Cache-Control` is absent
(`""`), else the parsed capture of `.*max-age=([0-9]+).*`, falling back to
`-1` when the regexp does not match or `strconv.ParseInt` errors. -/
def parseMaxAge (cc : String) : Int :=
  if cc = "" then -1
  else
    match (maxAgeCaptures cc.data).getLast? with
    | none => -1
    | some ds =>
      let r := goParseInt ⟨ds⟩
      if r.2 then -1 else r.1

/-! ## Data model -/

/-- `AdvertisableServer` (ssdp.go:266-280). The two `*time.Timer` handles
are modelled by their running/stopped state. -/
structure AdvertisableServer where
  ServiceType : String
  DeviceUuid : String
  Location : String
  MaxAge : Int
  usn : String := ""
  lastTimerRunning : Bool := false
  last3sTimerRunning : Bool := false
deriving DecidableEq

/-- An outbound SSDP datagram before serialisation by `createSsdpHeader`
(ssdp.go:692-704): the request/status head and the header map. Go map
iteration randomises the on-wire header order, so the message is modelled
at the header-map level (as a list in insertion order). -/
structure SsdpMessage where
  head : String
  vars : List (String × String)
  isResponse : Bool
deriving DecidableEq

/-- `AliveMessage` (ssdp.go:179-194) without the raw request handle. -/
structure AliveMessage where
  SearchType : String
  DeviceId : String
  Usn : String
  Location : String
  MaxAge : Int
  Server : String
deriving DecidableEq

/-- `ByeMessage` (ssdp.go:202-211) without the raw request handle. -/
structure ByeMessage where
  SearchType : String
  DeviceId : String
  Usn : String
deriving DecidableEq

/-- `ResponseMessage` (ssdp.go:222-237) without the raw response handle. -/
structure ResponseMessage where
  MaxAge : Int
  SearchType : String
  DeviceId : String
  Usn : String
  Location : String
  Server : String
deriving DecidableEq

/-- An event dispatched to the `SsdpListener` observer. -/
inductive SsdpEvent where
  | alive (m : AliveMessage)
  | bye (m : ByeMessage)
deriving DecidableEq

/-- The mutable `Ssdp` engine state (ssdp.go:146-159). The socket pair is
modelled by whether it is open (`s.socket != nil`); the listener by whether
one is registered; `listenSearchTargets` (a `map[string]bool` used as a
set) by its key list. -/
structure Ssdp where
  advertisableServers : List (String × List AdvertisableServer)
  deviceIdToServer : List (String × AdvertisableServer)
  listenSearchTargets : List String
  listenerPresent : Bool
  isRunning : Bool
  socketOpen : Bool
deriving DecidableEq

/-- The state constructed by a successful `NewSsdp` / `NewSsdpWithLogger`
(ssdp.go:347-365): empty registry, running, socket open. -/
def newSsdp (listenerPresent : Bool) : Ssdp :=
  { advertisableServers := []
    deviceIdToServer := []
    listenSearchTargets := []
    listenerPresent := listenerPresent
    isRunning := true
    socketOpen := true }

/-! ## Registry operations -/

/-- `AdvertiseServer` (ssdp.go:285-303): no-op when not running; otherwise
derive the USN, append to the service-type bucket (creating it if absent),
record under the device UUID, and start both timers. -/
def advertiseServerOp (s : Ssdp) (ads : AdvertisableServer) : Ssdp :=
  if !s.isRunning then s
  else
    let a := { ads with
      usn := "uuid:" ++ ads.DeviceUuid ++ "::" ++ ads.ServiceType
      lastTimerRunning := true
      last3sTimerRunning := true }
    let buckets :=
      match mapLookup s.advertisableServers a.ServiceType with
      | some v => mapInsert s.advertisableServers a.ServiceType (v ++ [a])
      | none => mapInsert s.advertisableServers a.ServiceType [a]
    { s with
      advertisableServers := buckets
      deviceIdToServer := mapInsert s.deviceIdToServer a.DeviceUuid a }

/-- The removal loop of `RemoveServer` (ssdp.go:330-342): drop the first
bucket element whose `DeviceUuid` matches (the bucket is left unchanged
when none matches). -/
def removeFirstByUuid (group : List AdvertisableServer) (uuid : String) :
    List AdvertisableServer :=
  match group with
  | [] => []
  | a :: rest =>
    if a.DeviceUuid = uuid then rest else a :: removeFirstByUuid rest uuid

/-- `RemoveServer` (ssdp.go:306-343): no-op when not running or the UUID is
unknown; otherwise stop both timers, delete the UUID binding, and delete
the advertisement from its service-type bucket, collapsing a singleton
bucket (Go deletes a length-1 bucket without inspecting its element). -/
def removeServerOp (s : Ssdp) (deviceUuid : String) : Ssdp :=
  if !s.isRunning then s
  else
    match mapLookup s.deviceIdToServer deviceUuid with
    | none => s
    | some ads =>
      let s1 := { s with deviceIdToServer := mapDelete s.deviceIdToServer deviceUuid }
      match mapLookup s1.advertisableServers ads.ServiceType with
      | none => s1
      | some group =>
        if group.length = 1 then
          { s1 with advertisableServers := mapDelete s1.advertisableServers ads.ServiceType }
        else
          { s1 with advertisableServers :=
              (mapInsert s1.advertisableServers ads.ServiceType
                (removeFirstByUuid group ads.DeviceUuid)) }

/-- `ListenFor` (ssdp.go:584-617): when not running, an error and no state
change; otherwise add the target to the listen set and enqueue one
M-SEARCH datagram. Returns (new state, error?, enqueued messages). -/
def listenForOp (s : Ssdp) (searchTarget : String) :
    Ssdp × Option String × List SsdpMessage :=
  if !s.isRunning then (s, some "Not running. Can't listen", [])
  else
    ({ s with listenSearchTargets :=
        if searchTarget ∈ s.listenSearchTargets then s.listenSearchTargets
        else s.listenSearchTargets ++ [searchTarget] },
     none,
     [{ head := "M-SEARCH"
        vars := [("HOST", "239.255.255.250:1900"),
                 ("ST", searchTarget),
                 ("MAN", "\"ssdp:discover\""),
                 ("MX", "3")]
        isResponse := false }])

/-! ## Incoming NOTIFY and response parsing -/

/-- `notify` (ssdp.go:399-462): the events dispatched to the observer for an
incoming NOTIFY with the given headers. No event when no observer is
registered, `NTS` or `NT` is missing, or `NTS` is neither `ssdp:alive` nor
`ssdp:byebye` (case-insensitively). -/
def notifyOp (s : Ssdp) (hs : List (String × String)) : List SsdpEvent :=
  if !s.listenerPresent then []
  else
    let nts := headerGet hs "NTS"
    if nts = "" then []
    else
      let searchType := headerGet hs "NT"
      if searchType = "" then []
      else
        let usn := headerGet hs "USN"
        let deviceId := deviceIdFromUsn usn
        let ntsLower := asciiLower nts
        if ntsLower = "ssdp:alive" then
          [SsdpEvent.alive
            { SearchType := searchType
              DeviceId := deviceId
              Usn := usn
              Location := headerGet hs "LOCATION"
              MaxAge := parseMaxAge (headerGet hs "CACHE-CONTROL")
              Server := headerGet hs "SERVER" }]
        else if ntsLower = "ssdp:byebye" then
          [SsdpEvent.bye { SearchType := searchType, DeviceId := deviceId, Usn := usn }]
        else []

/-- `parseResponse` (ssdp.go:480-523) after a successful HTTP parse: the
response event dispatched to the observer, built from the response
headers; `none` when no observer is registered. -/
def parseResponseOp (s : Ssdp) (hs : List (String × String)) :
    Option ResponseMessage :=
  if !s.listenerPresent then none
  else
    let usn := headerGet hs "USN"
    some
      { MaxAge := parseMaxAge (headerGet hs "CACHE-CONTROL")
        SearchType := headerGet hs "ST"
        DeviceId := deviceIdFromUsn usn
        Usn := usn
        Location := headerGet hs "LOCATION"
        Server := headerGet hs "SERVER" }

/-! ## M-SEARCH handling -/

/-- Go string slicing `s[lo:hi]` (byte = character level for the ASCII
strings in scope): panics — `none` — unless `0 ≤ lo ≤ hi ≤ len(s)`. -/
def goSlice (s : List Char) (lo hi : Int) : Option (List Char) :=
  if 0 ≤ lo ∧ lo ≤ hi ∧ hi ≤ (s.length : Int) then
    some ((s.take hi.toNat).drop lo.toNat)
  else none

/-- The ST-unquoting step of `inMSearch` (ssdp.go:527-529):
`if st[0] == '"' && st[len(st)-1] == '"' { st = st[1:len(st)-2] }`.
`none` models a panic: indexing `st[0]` of an empty string, or an
out-of-range slice. -/
def unquoteST (st : List Char) : Option (List Char) :=
  match st with
  | [] => none
  | _ =>
    if st.getD 0 ' ' = '"' ∧ st.getD (st.length - 1) ' ' = '"' then
      goSlice st 1 ((st.length : Int) - 2)
    else some st

/-- The MX computation of `inMSearch` (ssdp.go:530-536), exactly as coded:
`mx` starts at `0` and is assigned the `strconv.ParseInt` result only when
`err != nil`. The subsequent sleep is `mx` seconds. -/
def computeMx (mxStr : String) : Int :=
  if mxStr = "" then 0
  else
    let r := goParseInt mxStr
    if r.2 then r.1 else 0

/-- Every advertisement in the registry, in bucket order (Go iterates the
`advertisableServers` map; order is unspecified, statements below are
order-insensitive). -/
def allAdvertisements (s : Ssdp) : List AdvertisableServer :=
  (s.advertisableServers.map Prod.snd).flatten

/-- The matching policy of `inMSearch` (ssdp.go:542-555): the list of
advertisements for which `respondToMSearch` is invoked, given the already
unquoted search target. -/
def msearchResponders (s : Ssdp) (st : String) : List AdvertisableServer :=
  if st = "ssdp:all" then allAdvertisements s
  else
    match mapLookup s.deviceIdToServer st with
    | some d => [d]
    | none =>
      match mapLookup s.advertisableServers st with
      | some v => v
      | none => []

/-- `inMSearch` (ssdp.go:526-555): unquote the search target (possibly
panicking), compute the sleep delay in seconds, and determine the
responding advertisements. `none` models the panic aborting the datagram's
processing. -/
def inMSearch (s : Ssdp) (st mxHeader : String) :
    Option (Int × List AdvertisableServer) :=
  match unquoteST st.data with
  | none => none
  | some st1 => some (computeMx mxHeader, msearchResponders s ⟨st1⟩)

/-- The response datagram built by `respondToMSearch` (ssdp.go:557-570). -/
def respondToMSearchMsg (ads : AdvertisableServer) (dateNow serverName : String) :
    SsdpMessage :=
  { head := "200 OK"
    vars := [("ST", ads.ServiceType),
             ("USN", ads.usn),
             ("LOCATION", ads.Location),
             ("CACHE-CONTROL", "max-age=" ++ toString ads.MaxAge),
             ("DATE", dateNow),
             ("SERVER", serverName),
             ("EXT", "")]
    isResponse := true }

/-! ## Advertising and shutdown -/

/-- The NOTIFY datagram built by `advertiseServer` (ssdp.go:661-682):
alive messages carry `LOCATION` / `CACHE-CONTROL` / `SERVER` in addition to
the four base headers; byebye messages carry only the base headers. -/
def advertiseServerMsg (ads : AdvertisableServer) (alive : Bool)
    (serverName : String) : SsdpMessage :=
  { head := "NOTIFY"
    vars := [("HOST", "239.255.255.250:1900"),
             ("NT", ads.ServiceType),
             ("NTS", if alive then "ssdp:alive" else "ssdp:byebye"),
             ("USN", ads.usn)] ++
      (if alive then
        [("LOCATION", ads.Location),
         ("CACHE-CONTROL", "max-age=" ++ toString ads.MaxAge),
         ("SERVER", serverName)]
      else [])
    isResponse := false }

def stopTimers (a : AdvertisableServer) : AdvertisableServer :=
  { a with lastTimerRunning := false, last3sTimerRunning := false }

/-- `advertiseClosed` (ssdp.go:653-659): for every advertisement in
`deviceIdToServer`, stop both timers and enqueue one byebye NOTIFY.
Returns the updated state and the enqueued datagrams in iteration order. -/
def advertiseClosed (s : Ssdp) (serverName : String) : Ssdp × List SsdpMessage :=
  ({ s with deviceIdToServer := s.deviceIdToServer.map fun p => (p.1, stopTimers p.2) },
   s.deviceIdToServer.map fun p => advertiseServerMsg p.2 false serverName)

/-- `Stop` (ssdp.go:632-651): mark the engine not running; when the socket
is open, emit the byebyes (when any advertisement is registered), then
close the socket. Returns the final state and the byebye datagrams
enqueued ahead of the writer's exit sentinel. -/
def stopOp (s : Ssdp) (serverName : String) : Ssdp × List SsdpMessage :=
  let s1 := { s with isRunning := false }
  if s1.socketOpen then
    let r :=
      if s1.advertisableServers.length > 0 then advertiseClosed s1 serverName
      else (s1, [])
    ({ r.1 with socketOpen := false }, r.2)
  else (s1, [])

/-! ## Registry invariant and operation sequences -/

def keys {α : Type} (m : List (String × α)) : List String := m.map Prod.fst

/-- Structural well-formedness of the registry, maintained by
`AdvertiseServer` (for fresh device UUIDs) and `RemoveServer`: both indexes
have distinct keys; every bucket is non-empty, holds advertisements of its
own service type with pairwise-distinct device UUIDs, each recorded under
its UUID in `deviceIdToServer`; and every `deviceIdToServer` entry is keyed
by its advertisement's UUID, carries the derived USN, and appears in its
service-type bucket. -/
def RegistryInv (s : Ssdp) : Prop :=
  (keys s.advertisableServers).Nodup ∧
  (keys s.deviceIdToServer).Nodup ∧
  (∀ p ∈ s.advertisableServers,
    p.2 ≠ [] ∧
    (p.2.map AdvertisableServer.DeviceUuid).Nodup ∧
    ∀ a ∈ p.2, a.ServiceType = p.1 ∧ mapLookup s.deviceIdToServer a.DeviceUuid = some a) ∧
  (∀ q ∈ s.deviceIdToServer,
    q.2.DeviceUuid = q.1 ∧
    q.2.usn = "uuid:" ++ q.1 ++ "::" ++ q.2.ServiceType ∧
    q.2 ∈ (mapLookup s.advertisableServers q.2.ServiceType).getD [])

/-- The consistency property claimed of the registry: exactly one entry per
device UUID among all registered advertisements, bucket membership for an
advertisement's own service type iff presence in the device-UUID index, and
the USN formula. -/
def registryConsistent (s : Ssdp) : Prop :=
  (∀ a ∈ allAdvertisements s,
    ((allAdvertisements s).countP fun b => b.DeviceUuid = a.DeviceUuid) = 1) ∧
  (∀ a : AdvertisableServer,
    a ∈ (mapLookup s.advertisableServers a.ServiceType).getD [] ↔
      ∃ q ∈ s.deviceIdToServer, q.2 = a) ∧
  (∀ a ∈ allAdvertisements s,
    a.usn = "uuid:" ++ a.DeviceUuid ++ "::" ++ a.ServiceType)

/-- A user-facing registry mutation. -/
inductive RegistryOp where
  | advertise (ads : AdvertisableServer)
  | remove (uuid : String)

def applyOp (s : Ssdp) : RegistryOp → Ssdp
  | .advertise a => advertiseServerOp s a
  | .remove u => removeServerOp s u

def applyOps (s : Ssdp) (ops : List RegistryOp) : Ssdp := ops.foldl applyOp s

/-- Every `advertise` in the sequence uses a device UUID not currently in
the device-UUID index (the "Should only be called once per server"
precondition documented on `AdvertiseServer`, ssdp.go:283). -/
def freshOps (s : Ssdp) : List RegistryOp → Bool
  | [] => true
  | op :: rest =>
    (match op with
     | .advertise a => (mapLookup s.deviceIdToServer a.DeviceUuid).isNone
     | .remove _ => true) && freshOps (applyOp s op) rest

/-! ## Lemmas about the Go map model -/

theorem keys_cons {α : Type} (a : String) (b : α) (m : List (String × α)) :
    keys ((a, b) :: m) = a :: keys m := rfl

theorem mapLookup_cons {α : Type} (a : String) (b : α) (m : List (String × α))
    (k : String) :
    mapLookup ((a, b) :: m) k = if a = k then some b else mapLookup m k := rfl

theorem mapInsert_cons {α : Type} (a : String) (b : α) (m : List (String × α))
    (k : String) (v : α) :
    mapInsert ((a, b) :: m) k v =
      if a = k then (k, v) :: m else (a, b) :: mapInsert m k v := rfl

theorem mapDelete_cons {α : Type} (a : String) (b : α) (m : List (String × α))
    (k : String) :
    mapDelete ((a, b) :: m) k = if a = k then m else (a, b) :: mapDelete m k := rfl

theorem mapLookup_insert_self {α : Type} (m : List (String × α)) (k : String) (v : α) :
    mapLookup (mapInsert m k v) k = some v := by
  induction m with
  | nil => simp [mapInsert, mapLookup]
  | cons p rest ih =>
    obtain ⟨a, b⟩ := p
    by_cases h : a = k
    · simp [mapInsert_cons, mapLookup_cons, h]
    · simpa [mapInsert_cons, mapLookup_cons, h] using ih

theorem mapLookup_insert_ne {α : Type} (m : List (String × α)) (k k' : String) (v : α)
    (h : k' ≠ k) : mapLookup (mapInsert m k v) k' = mapLookup m k' := by
  have hk : ¬ k = k' := fun he => h he.symm
  induction m with
  | nil => simp [mapInsert, mapLookup, hk]
  | cons p rest ih =>
    obtain ⟨a, b⟩ := p
    by_cases ha : a = k
    · subst ha
      simp [mapInsert_cons, mapLookup_cons, hk]
    · by_cases ha' : a = k'
      · simp [mapInsert_cons, mapLookup_cons, ha, ha', h]
      · simpa [mapInsert_cons, mapLookup_cons, ha, ha'] using ih

theorem mapLookup_delete_ne {α : Type} (m : List (String × α)) (k k' : String)
    (h : k' ≠ k) : mapLookup (mapDelete m k) k' = mapLookup m k' := by
  have hk : ¬ k = k' := fun he => h he.symm
  induction m with
  | nil => simp [mapDelete, mapLookup]
  | cons p rest ih =>
    obtain ⟨a, b⟩ := p
    by_cases ha : a = k
    · subst ha
      simp [mapDelete_cons, mapLookup_cons, hk]
    · by_cases ha' : a = k'
      · simp [mapDelete_cons, mapLookup_cons, ha, ha', h]
      · simpa [mapDelete_cons, mapLookup_cons, ha, ha'] using ih

theorem mapLookup_mem {α : Type} {m : List (String × α)} {k : String} {v : α}
    (h : mapLookup m k = some v) : (k, v) ∈ m := by
  induction m with
  | nil => simp [mapLookup] at h
  | cons p rest ih =>
    obtain ⟨a, b⟩ := p
    by_cases ha : a = k
    · rw [mapLookup_cons, if_pos ha] at h
      obtain rfl : b = v := Option.some.inj h
      subst ha
      exact List.mem_cons_self _ _
    · rw [mapLookup_cons, if_neg ha] at h
      exact List.mem_cons_of_mem _ (ih h)

theorem mem_mapLookup {α : Type} {m : List (String × α)} {k : String} {v : α}
    (hnd : (keys m).Nodup) (h : (k, v) ∈ m) : mapLookup m k = some v := by
  induction m with
  | nil => simp at h
  | cons p rest ih =>
    obtain ⟨a, b⟩ := p
    rw [keys_cons, List.nodup_cons] at hnd
    rcases List.mem_cons.1 h with h1 | h1
    · injection h1 with h1a h1b
      rw [mapLookup_cons, if_pos h1a.symm, h1b]
    · have hk : ¬ a = k := by
        intro hk
        subst hk
        exact hnd.1 (List.mem_map_of_mem Prod.fst h1)
      rw [mapLookup_cons, if_neg hk]
      exact ih hnd.2 h1

theorem mem_mapInsert {α : Type} {m : List (String × α)} {k : String} {v : α}
    {p : String × α} (hnd : (keys m).Nodup) (h : p ∈ mapInsert m k v) :
    p = (k, v) ∨ (p ∈ m ∧ p.1 ≠ k) := by
  induction m with
  | nil =>
    simp only [mapInsert, List.mem_singleton] at h
    left; exact h
  | cons q rest ih =>
    obtain ⟨a, b⟩ := q
    rw [keys_cons, List.nodup_cons] at hnd
    by_cases ha : a = k
    · subst ha
      rw [mapInsert_cons, if_pos rfl] at h
      rcases List.mem_cons.1 h with h1 | h1
      · left; exact h1
      · right
        refine ⟨List.mem_cons_of_mem _ h1, ?_⟩
        intro hp
        exact hnd.1 (hp ▸ List.mem_map_of_mem Prod.fst h1)
    · rw [mapInsert_cons, if_neg ha] at h
      rcases List.mem_cons.1 h with h1 | h1
      · right
        constructor
        · rw [h1]; exact List.mem_cons_self _ _
        · rw [h1]; exact ha
      · rcases ih hnd.2 h1 with h2 | h2
        · left; exact h2
        · right; exact ⟨List.mem_cons_of_mem _ h2.1, h2.2⟩

theorem mapInsert_mem_self {α : Type} (m : List (String × α)) (k : String) (v : α) :
    (k, v) ∈ mapInsert m k v := by
  induction m with
  | nil => simp [mapInsert]
  | cons q rest ih =>
    obtain ⟨a, b⟩ := q
    by_cases ha : a = k
    · rw [mapInsert_cons, if_pos ha]
      exact List.mem_cons_self _ _
    · rw [mapInsert_cons, if_neg ha]
      exact List.mem_cons_of_mem _ ih

theorem mem_mapInsert_of_ne {α : Type} {m : List (String × α)} {k : String} {v : α}
    {p : String × α} (h : p ∈ m) (hne : p.1 ≠ k) : p ∈ mapInsert m k v := by
  induction m with
  | nil => simp at h
  | cons q rest ih =>
    obtain ⟨a, b⟩ := q
    by_cases ha : a = k
    · rw [mapInsert_cons, if_pos ha]
      rcases List.mem_cons.1 h with h1 | h1
      · exfalso
        apply hne
        rw [h1, ← ha]
      · exact List.mem_cons_of_mem _ h1
    · rw [mapInsert_cons, if_neg ha]
      rcases List.mem_cons.1 h with h1 | h1
      · rw [h1]; exact List.mem_cons_self _ _
      · exact List.mem_cons_of_mem _ (ih h1)

theorem mem_mapDelete_iff {α : Type} {m : List (String × α)} {k : String}
    {p : String × α} (hnd : (keys m).Nodup) :
    p ∈ mapDelete m k ↔ p ∈ m ∧ p.1 ≠ k := by
  induction m with
  | nil => simp [mapDelete]
  | cons q rest ih =>
    obtain ⟨a, b⟩ := q
    rw [keys_cons, List.nodup_cons] at hnd
    by_cases ha : a = k
    · subst ha
      rw [mapDelete_cons, if_pos rfl]
      constructor
      · intro h
        refine ⟨List.mem_cons_of_mem _ h, ?_⟩
        intro hp
        exact hnd.1 (hp ▸ List.mem_map_of_mem Prod.fst h)
      · rintro ⟨h, hne⟩
        rcases List.mem_cons.1 h with h1 | h1
        · exfalso; apply hne; rw [h1]
        · exact h1
    · rw [mapDelete_cons, if_neg ha]
      constructor
      · intro h
        rcases List.mem_cons.1 h with h1 | h1
        · exact ⟨by rw [h1]; exact List.mem_cons_self _ _, by rw [h1]; exact ha⟩
        · have h2 := (ih hnd.2).1 h1
          exact ⟨List.mem_cons_of_mem _ h2.1, h2.2⟩
      · rintro ⟨h, hne⟩
        rcases List.mem_cons.1 h with h1 | h1
        · rw [h1]; exact List.mem_cons_self _ _
        · exact List.mem_cons_of_mem _ ((ih hnd.2).2 ⟨h1, hne⟩)

theorem mapLookup_delete_self {α : Type} (m : List (String × α)) (k : String)
    (hnd : (keys m).Nodup) : mapLookup (mapDelete m k) k = none := by
  cases h : mapLookup (mapDelete m k) k with
  | none => rfl
  | some v =>
    have hm := mapLookup_mem h
    rw [mem_mapDelete_iff hnd] at hm
    exact absurd rfl hm.2

theorem mem_keys_mapInsert {α : Type} {m : List (String × α)} {k x : String} {v : α}
    (h : x ∈ keys (mapInsert m k v)) : x ∈ keys m ∨ x = k := by
  induction m with
  | nil =>
    simp only [mapInsert, keys, List.map_cons, List.map_nil, List.mem_singleton] at h
    right; exact h
  | cons q rest ih =>
    obtain ⟨a, b⟩ := q
    by_cases ha : a = k
    · rw [mapInsert_cons, if_pos ha, keys_cons] at h
      rcases List.mem_cons.1 h with h1 | h1
      · right; exact h1
      · left; rw [keys_cons]; exact List.mem_cons_of_mem _ h1
    · rw [mapInsert_cons, if_neg ha, keys_cons] at h
      rcases List.mem_cons.1 h with h1 | h1
      · left; rw [keys_cons, h1]; exact List.mem_cons_self _ _
      · rcases ih h1 with h2 | h2
        · left; rw [keys_cons]; exact List.mem_cons_of_mem _ h2
        · right; exact h2

theorem keys_mapInsert_nodup {α : Type} {m : List (String × α)} (k : String) (v : α)
    (hnd : (keys m).Nodup) : (keys (mapInsert m k v)).Nodup := by
  induction m with
  | nil => simp [mapInsert, keys]
  | cons q rest ih =>
    obtain ⟨a, b⟩ := q
    rw [keys_cons, List.nodup_cons] at hnd
    by_cases ha : a = k
    · subst ha
      rw [mapInsert_cons, if_pos rfl, keys_cons, List.nodup_cons]
      exact hnd
    · rw [mapInsert_cons, if_neg ha, keys_cons, List.nodup_cons]
      refine ⟨?_, ih hnd.2⟩
      intro hmem
      rcases mem_keys_mapInsert hmem with h1 | h1
      · exact hnd.1 h1
      · exact ha h1

theorem keys_mapDelete_sublist {α : Type} (m : List (String × α)) (k : String) :
    (keys (mapDelete m k)).Sublist (keys m) := by
  induction m with
  | nil => simp [mapDelete]
  | cons q rest ih =>
    obtain ⟨a, b⟩ := q
    by_cases ha : a = k
    · rw [mapDelete_cons, if_pos ha, keys_cons]
      exact List.sublist_cons_self _ _
    · rw [mapDelete_cons, if_neg ha, keys_cons, keys_cons]
      exact ih.cons₂ _

theorem keys_mapDelete_nodup {α : Type} {m : List (String × α)} {k : String}
    (hnd : (keys m).Nodup) : (keys (mapDelete m k)).Nodup :=
  hnd.sublist (keys_mapDelete_sublist m k)

/-! ## Lemmas about `removeFirstByUuid` -/

theorem removeFirstByUuid_sublist (g : List AdvertisableServer) (u : String) :
    (removeFirstByUuid g u).Sublist g := by
  induction g with
  | nil => simp [removeFirstByUuid]
  | cons a rest ih =>
    by_cases ha : a.DeviceUuid = u
    · rw [removeFirstByUuid, if_pos ha]
      exact List.sublist_cons_self _ _
    · rw [removeFirstByUuid, if_neg ha]
      exact ih.cons₂ _

theorem mem_removeFirstByUuid_of_ne {g : List AdvertisableServer} {u : String}
    {b : AdvertisableServer} (h : b ∈ g) (hne : b.DeviceUuid ≠ u) :
    b ∈ removeFirstByUuid g u := by
  induction g with
  | nil => simp at h
  | cons a rest ih =>
    by_cases ha : a.DeviceUuid = u
    · rw [removeFirstByUuid, if_pos ha]
      rcases List.mem_cons.1 h with h1 | h1
      · exact absurd (h1 ▸ ha) hne
      · exact h1
    · rw [removeFirstByUuid, if_neg ha]
      rcases List.mem_cons.1 h with h1 | h1
      · rw [h1]; exact List.mem_cons_self _ _
      · exact List.mem_cons_of_mem _ (ih h1)

theorem removeFirstByUuid_length {g : List AdvertisableServer} {u : String}
    {c : AdvertisableServer} (hc : c ∈ g) (hcu : c.DeviceUuid = u) :
    (removeFirstByUuid g u).length + 1 = g.length := by
  induction g with
  | nil => simp at hc
  | cons a rest ih =>
    by_cases ha : a.DeviceUuid = u
    · rw [removeFirstByUuid, if_pos ha]
      simp
    · rw [removeFirstByUuid, if_neg ha]
      rcases List.mem_cons.1 hc with h1 | h1
      · exact absurd (h1 ▸ hcu) ha
      · simp only [List.length_cons]
        rw [← ih h1]

theorem mem_removeFirstByUuid_uuid_ne {g : List AdvertisableServer} {u : String}
    {b c : AdvertisableServer}
    (hnd : (g.map AdvertisableServer.DeviceUuid).Nodup)
    (hc : c ∈ g) (hcu : c.DeviceUuid = u)
    (hb : b ∈ removeFirstByUuid g u) : b.DeviceUuid ≠ u := by
  induction g with
  | nil => simp at hc
  | cons a rest ih =>
    rw [List.map_cons, List.nodup_cons] at hnd
    by_cases ha : a.DeviceUuid = u
    · rw [removeFirstByUuid, if_pos ha] at hb
      intro hbu
      apply hnd.1
      rw [ha, ← hbu]
      exact List.mem_map_of_mem _ hb
    · rw [removeFirstByUuid, if_neg ha] at hb
      rcases List.mem_cons.1 hb with h1 | h1
      · rw [h1]; exact ha
      · rcases List.mem_cons.1 hc with h2 | h2
        · exact absurd (h2 ▸ hcu) ha
        · exact ih hnd.2 h2 h1

/-! ## Preservation of the registry invariant -/

theorem registryInv_advertise (s : Ssdp) (ads : AdvertisableServer)
    (hInv : RegistryInv s)
    (hFresh : mapLookup s.deviceIdToServer ads.DeviceUuid = none) :
    RegistryInv (advertiseServerOp s ads) := by
  obtain ⟨hndST, hndID, hBuckets, hEntries⟩ := hInv
  by_cases hrun : s.isRunning
  · set a : AdvertisableServer :=
      { ads with
        usn := "uuid:" ++ ads.DeviceUuid ++ "::" ++ ads.ServiceType
        lastTimerRunning := true
        last3sTimerRunning := true } with ha
    have hauuid : a.DeviceUuid = ads.DeviceUuid := rfl
    have hast : a.ServiceType = ads.ServiceType := rfl
    -- the old bucket for `a.ServiceType`, `[]` when the key is absent
    set g0 : List AdvertisableServer :=
      (mapLookup s.advertisableServers a.ServiceType).getD [] with hg0
    have hop : advertiseServerOp s ads =
        { s with
          advertisableServers := mapInsert s.advertisableServers a.ServiceType (g0 ++ [a])
          deviceIdToServer := mapInsert s.deviceIdToServer a.DeviceUuid a } := by
      rw [advertiseServerOp, if_neg (by simp [hrun])]
      cases hl : mapLookup s.advertisableServers ads.ServiceType with
      | none => simp [hg0, ← ha, hast, hl]
      | some v => simp [hg0, ← ha, hast, hl]
    rw [hop]
    -- facts about the old bucket
    have hg0mem : ∀ b ∈ g0, b.ServiceType = a.ServiceType ∧
        mapLookup s.deviceIdToServer b.DeviceUuid = some b := by
      intro b hb
      cases hl : mapLookup s.advertisableServers a.ServiceType with
      | none => rw [hg0, hl] at hb; simp at hb
      | some v =>
        rw [hg0, hl] at hb
        have hentry := hBuckets _ (mapLookup_mem hl)
        exact ⟨(hentry.2.2 b hb).1, (hentry.2.2 b hb).2⟩
    have hg0nodup : (g0.map AdvertisableServer.DeviceUuid).Nodup := by
      cases hl : mapLookup s.advertisableServers a.ServiceType with
      | none => rw [hg0, hl]; simp
      | some v =>
        rw [hg0, hl]
        exact (hBuckets _ (mapLookup_mem hl)).2.1
    have hg0ne : ∀ b ∈ g0, b.DeviceUuid ≠ a.DeviceUuid := by
      intro b hb hbe
      have := (hg0mem b hb).2
      rw [hbe, hauuid, hFresh] at this
      exact Option.noConfusion this
    refine ⟨keys_mapInsert_nodup _ _ hndST, keys_mapInsert_nodup _ _ hndID, ?_, ?_⟩
    · -- buckets of the new service-type index
      intro p hp
      rcases mem_mapInsert hndST hp with hp1 | ⟨hp1, hp2⟩
      · subst hp1
        refine ⟨by simp, ?_, ?_⟩
        · rw [List.map_append, List.map_singleton]
          rw [List.nodup_append]
          refine ⟨hg0nodup, List.nodup_singleton _, ?_⟩
          intro x hx hx1
          rw [List.mem_singleton] at hx1
          rcases List.mem_map.1 hx with ⟨b, hb, hbx⟩
          exact hg0ne b hb (hbx.trans hx1)
        · intro b hb
          rcases List.mem_append.1 hb with hb1 | hb1
          · refine ⟨(hg0mem b hb1).1, ?_⟩
            rw [mapLookup_insert_ne _ _ _ _ (hg0ne b hb1)]
            exact (hg0mem b hb1).2
          · rw [List.mem_singleton] at hb1
            subst hb1
            exact ⟨rfl, mapLookup_insert_self _ _ _⟩
      · -- an untouched bucket
        have hold := hBuckets p hp1
        refine ⟨hold.1, hold.2.1, ?_⟩
        intro b hb
        refine ⟨(hold.2.2 b hb).1, ?_⟩
        have hbne : b.DeviceUuid ≠ a.DeviceUuid := by
          intro hbe
          have := (hold.2.2 b hb).2
          rw [hbe, hauuid, hFresh] at this
          exact Option.noConfusion this
        rw [mapLookup_insert_ne _ _ _ _ hbne]
        exact (hold.2.2 b hb).2
    · -- entries of the new device-UUID index
      intro q hq
      rcases mem_mapInsert hndID hq with hq1 | ⟨hq1, hq2⟩
      · subst hq1
        refine ⟨rfl, rfl, ?_⟩
        rw [mapLookup_insert_self]
        simp only [Option.getD_some]
        exact List.mem_append_right _ (List.mem_singleton.2 rfl)
      · have hold := hEntries q hq1
        refine ⟨hold.1, hold.2.1, ?_⟩
        by_cases hts : q.2.ServiceType = a.ServiceType
        · rw [hts, mapLookup_insert_self]
          simp only [Option.getD_some]
          apply List.mem_append_left
          have := hold.2.2
          rw [hts] at this
          exact this
        · rw [mapLookup_insert_ne _ _ _ _ hts]
          exact hold.2.2
  · rw [advertiseServerOp, if_pos (by simp [hrun])]
    exact ⟨hndST, hndID, hBuckets, hEntries⟩

theorem registryInv_remove (s : Ssdp) (u : String) (hInv : RegistryInv s) :
    RegistryInv (removeServerOp s u) := by
  obtain ⟨hndST, hndID, hBuckets, hEntries⟩ := hInv
  by_cases hrun : s.isRunning
  case neg =>
    rw [removeServerOp, if_pos (by simp [hrun])]
    exact ⟨hndST, hndID, hBuckets, hEntries⟩
  cases hlu : mapLookup s.deviceIdToServer u with
  | none =>
    have hop : removeServerOp s u = s := by
      rw [removeServerOp, if_neg (by simp [hrun]), hlu]
    rw [hop]
    exact ⟨hndST, hndID, hBuckets, hEntries⟩
  | some ads =>
    obtain ⟨hadsu, hadsusn, hadsmem⟩ := hEntries (u, ads) (mapLookup_mem hlu)
    cases hlt : mapLookup s.advertisableServers ads.ServiceType with
    | none => rw [hlt] at hadsmem; simp at hadsmem
    | some g0 =>
      rw [hlt] at hadsmem
      simp only [Option.getD_some] at hadsmem
      obtain ⟨-, hg0nodup, hg0mem⟩ := hBuckets (ads.ServiceType, g0) (mapLookup_mem hlt)
      -- every member with the removed UUID is `ads` itself
      have huniq : ∀ b ∈ g0, b.DeviceUuid = u → b = ads := by
        intro b hb hbu
        have := (hg0mem b hb).2
        rw [hbu, hlu] at this
        exact (Option.some.inj this).symm
      by_cases hlen : g0.length = 1
      · -- singleton bucket: the key is deleted
        have hop : removeServerOp s u =
            { s with
              advertisableServers := mapDelete s.advertisableServers ads.ServiceType
              deviceIdToServer := mapDelete s.deviceIdToServer u } := by
          rw [removeServerOp, if_neg (by simp [hrun]), hlu]
          simp [hlt, hlen]
        rw [hop]
        have hsingle : g0 = [ads] := by
          rcases List.length_eq_one.1 hlen with ⟨b, hb⟩
          rw [hb] at hadsmem
          rw [hb, List.mem_singleton.1 hadsmem]
        refine ⟨keys_mapDelete_nodup hndST, keys_mapDelete_nodup hndID, ?_, ?_⟩
        · intro p hp
          rw [mem_mapDelete_iff hndST] at hp
          obtain ⟨hold1, hold2, hold3⟩ := hBuckets p hp.1
          refine ⟨hold1, hold2, ?_⟩
          intro b hb
          refine ⟨(hold3 b hb).1, ?_⟩
          have hbne : b.DeviceUuid ≠ u := by
            intro hbu
            have hba : b = ads := by
              have := (hold3 b hb).2
              rw [hbu, hlu] at this
              exact (Option.some.inj this).symm
            apply hp.2
            rw [← (hold3 b hb).1, hba]
          rw [mapLookup_delete_ne _ _ _ hbne]
          exact (hold3 b hb).2
        · intro q hq
          rw [mem_mapDelete_iff hndID] at hq
          obtain ⟨hold1, hold2, hold3⟩ := hEntries q hq.1
          refine ⟨hold1, hold2, ?_⟩
          have hts : q.2.ServiceType ≠ ads.ServiceType := by
            intro hts
            have hqmem : q.2 ∈ g0 := by
              rw [hts, hlt] at hold3
              simpa using hold3
            rw [hsingle, List.mem_singleton] at hqmem
            apply hq.2
            rw [← hold1, hqmem, hadsu]
          rw [mapLookup_delete_ne _ _ _ hts]
          exact hold3
      · -- larger bucket: drop the first matching element
        have hop : removeServerOp s u =
            { s with
              advertisableServers :=
                mapInsert s.advertisableServers ads.ServiceType
                  (removeFirstByUuid g0 ads.DeviceUuid)
              deviceIdToServer := mapDelete s.deviceIdToServer u } := by
          rw [removeServerOp, if_neg (by simp [hrun]), hlu]
          simp [hlt, hlen]
        rw [hop]
        have hadsu2 : ads.DeviceUuid = u := hadsu
        set g1 : List AdvertisableServer := removeFirstByUuid g0 ads.DeviceUuid with hg1
        have hg1sub : g1.Sublist g0 := removeFirstByUuid_sublist _ _
        have hg1len : g1.length + 1 = g0.length := by
          rw [hg1]
          exact removeFirstByUuid_length hadsmem rfl
        have hg1ne : g1 ≠ [] := by
          intro hnil
          apply hlen
          rw [← hg1len, hnil]
          rfl
        have hg1uuid : ∀ b ∈ g1, b.DeviceUuid ≠ u := by
          intro b hb
          rw [← hadsu2]
          exact mem_removeFirstByUuid_uuid_ne hg0nodup hadsmem rfl hb
        refine ⟨keys_mapInsert_nodup _ _ hndST, keys_mapDelete_nodup hndID, ?_, ?_⟩
        · intro p hp
          rcases mem_mapInsert hndST hp with hp1 | ⟨hp1, hp2⟩
          · subst hp1
            refine ⟨hg1ne, (hg0nodup.sublist (hg1sub.map _)), ?_⟩
            intro b hb
            have hbg0 : b ∈ g0 := hg1sub.subset hb
            refine ⟨(hg0mem b hbg0).1, ?_⟩
            rw [mapLookup_delete_ne _ _ _ (hg1uuid b hb)]
            exact (hg0mem b hbg0).2
          · obtain ⟨hold1, hold2, hold3⟩ := hBuckets p hp1
            refine ⟨hold1, hold2, ?_⟩
            intro b hb
            refine ⟨(hold3 b hb).1, ?_⟩
            have hbne : b.DeviceUuid ≠ u := by
              intro hbu
              have hba : b = ads := by
                have := (hold3 b hb).2
                rw [hbu, hlu] at this
                exact (Option.some.inj this).symm
              apply hp2
              rw [← (hold3 b hb).1, hba]
            rw [mapLookup_delete_ne _ _ _ hbne]
            exact (hold3 b hb).2
        · intro q hq
          rw [mem_mapDelete_iff hndID] at hq
          obtain ⟨hold1, hold2, hold3⟩ := hEntries q hq.1
          refine ⟨hold1, hold2, ?_⟩
          by_cases hts : q.2.ServiceType = ads.ServiceType
          · rw [hts, mapLookup_insert_self]
            simp only [Option.getD_some]
            have hqmem : q.2 ∈ g0 := by
              rw [hts, hlt] at hold3
              simpa using hold3
            apply mem_removeFirstByUuid_of_ne hqmem
            rw [hadsu2, hold1]
            exact hq.2
          · rw [mapLookup_insert_ne _ _ _ _ hts]
            exact hold3

theorem mem_allAdvertisements {s : Ssdp} {a : AdvertisableServer} :
    a ∈ allAdvertisements s ↔ ∃ p ∈ s.advertisableServers, a ∈ p.2 := by
  rw [allAdvertisements, List.mem_flatten]
  constructor
  · rintro ⟨l, hl, hal⟩
    rcases List.mem_map.1 hl with ⟨p, hp, hpl⟩
    exact ⟨p, hp, hpl ▸ hal⟩
  · rintro ⟨p, hp, hap⟩
    exact ⟨p.2, List.mem_map_of_mem Prod.snd hp, hap⟩

theorem registryInv_lookup_of_mem {s : Ssdp} {a : AdvertisableServer}
    (hInv : RegistryInv s) (ha : a ∈ allAdvertisements s) :
    mapLookup s.deviceIdToServer a.DeviceUuid = some a := by
  rcases mem_allAdvertisements.1 ha with ⟨p, hp, hap⟩
  exact ((hInv.2.2.1 p hp).2.2 a hap).2

theorem allAdvertisements_nodup {s : Ssdp} (hInv : RegistryInv s) :
    (allAdvertisements s).Nodup := by
  obtain ⟨hndST, hndID, hBuckets, hEntries⟩ := hInv
  rw [allAdvertisements, List.nodup_flatten]
  constructor
  · intro l hl
    rcases List.mem_map.1 hl with ⟨p, hp, hpl⟩
    exact hpl ▸ ((hBuckets p hp).2.1).of_map _
  · rw [List.pairwise_map]
    have hkeys : s.advertisableServers.Pairwise (fun p q => p.1 ≠ q.1) := by
      have := hndST
      rw [keys, List.nodup_iff_sublist] at this
      rw [← List.pairwise_map (R := (Ne : String → String → Prop))]
      exact (List.nodup_iff_sublist.2 this : (keys s.advertisableServers).Nodup)
    refine hkeys.imp_of_mem ?_
    intro p q hp hq hne
    intro x hxp hxq
    apply hne
    rw [← (hBuckets p hp).2.2 x hxp |>.1, ← (hBuckets q hq).2.2 x hxq |>.1]

theorem registryInv_registryConsistent {s : Ssdp} (hInv : RegistryInv s) :
    registryConsistent s := by
  have hnd := allAdvertisements_nodup hInv
  refine ⟨?_, ?_, ?_⟩
  · intro a ha
    have hcongr : ∀ b ∈ allAdvertisements s,
        (decide (b.DeviceUuid = a.DeviceUuid) = true) ↔ (b == a) = true := by
      intro b hb
      simp only [decide_eq_true_eq, beq_iff_eq]
      constructor
      · intro hba
        have h1 := registryInv_lookup_of_mem hInv hb
        have h2 := registryInv_lookup_of_mem hInv ha
        rw [hba] at h1
        rw [h1] at h2
        exact Option.some.inj h2
      · intro hba
        rw [hba]
    rw [List.countP_congr hcongr, ← List.count_eq_countP]
    exact List.count_eq_one_of_mem hnd ha
  · intro a
    constructor
    · intro hmem
      cases hl : mapLookup s.advertisableServers a.ServiceType with
      | none => rw [hl] at hmem; simp at hmem
      | some g =>
        rw [hl] at hmem
        simp only [Option.getD_some] at hmem
        have := (hInv.2.2.1 _ (mapLookup_mem hl)).2.2 a hmem
        exact ⟨(a.DeviceUuid, a), mapLookup_mem this.2, rfl⟩
    · rintro ⟨q, hq, rfl⟩
      exact (hInv.2.2.2 q hq).2.2
  · intro a ha
    rcases mem_allAdvertisements.1 ha with ⟨p, hp, hap⟩
    have hlook := ((hInv.2.2.1 p hp).2.2 a hap).2
    have := (hInv.2.2.2 _ (mapLookup_mem hlook)).2.1
    simpa using this

theorem registryInv_newSsdp (lp : Bool) : RegistryInv (newSsdp lp) := by
  refine ⟨?_, ?_, ?_, ?_⟩ <;> simp [newSsdp, keys]

theorem registryInv_applyOps (ops : List RegistryOp) (s : Ssdp)
    (hInv : RegistryInv s) (hFresh : freshOps s ops = true) :
    RegistryInv (applyOps s ops) := by
  induction ops generalizing s with
  | nil => exact hInv
  | cons op rest ih =>
    simp only [freshOps, Bool.and_eq_true] at hFresh
    rw [applyOps, List.foldl_cons]
    apply ih
    · cases op with
      | advertise a =>
        apply registryInv_advertise _ _ hInv
        have := hFresh.1
        simpa [Option.isNone_iff_eq_none] using this
      | remove u => exact registryInv_remove _ _ hInv
    · exact hFresh.2

/-! ## Helper lemmas for the lifecycle claims -/

theorem usn_append_cancel {u1 u2 x y z : String}
    (h : x ++ u1 ++ y ++ z = x ++ u2 ++ y ++ z) : u1 = u2 := by
  have hd := congrArg String.data h
  simp only [String.data_append] at hd
  exact String.ext
    (List.append_cancel_left (List.append_cancel_right (List.append_cancel_right hd)))

theorem stopOp_isRunning (s : Ssdp) (srv : String) :
    (stopOp s srv).1.isRunning = false := by
  rw [stopOp]
  by_cases h1 : s.socketOpen <;>
    by_cases h2 : s.advertisableServers.length > 0 <;>
      simp [h1, h2, advertiseClosed]

theorem deviceIdToServer_nil_of_no_buckets {s : Ssdp} (hInv : RegistryInv s)
    (h : s.advertisableServers = []) : s.deviceIdToServer = [] := by
  rcases hs : s.deviceIdToServer with _ | ⟨q, rest⟩
  · rfl
  · exfalso
    have hq := hInv.2.2.2 q (by rw [hs]; exact List.mem_cons_self _ _)
    have := hq.2.2
    rw [h] at this
    simp [mapLookup] at this

theorem stopOp_of_socketOpen {s : Ssdp} (srv : String) (hInv : RegistryInv s)
    (hSock : s.socketOpen = true) :
    (stopOp s srv).2 =
      s.deviceIdToServer.map (fun q => advertiseServerMsg q.2 false srv) ∧
    (stopOp s srv).1.deviceIdToServer =
      s.deviceIdToServer.map (fun q => (q.1, stopTimers q.2)) := by
  rcases hst : s.advertisableServers with _ | ⟨p, rest⟩
  · have hid := deviceIdToServer_nil_of_no_buckets hInv hst
    rw [stopOp]
    simp [hSock, hst, hid, advertiseClosed]
  · rw [stopOp]
    have hlen : ({ s with isRunning := false } : Ssdp).advertisableServers.length > 0 := by
      simp [hst]
    simp [hSock, hst, advertiseClosed]

theorem stopMessages_nodup {s : Ssdp} (srv : String) (hInv : RegistryInv s) :
    (s.deviceIdToServer.map (fun q => advertiseServerMsg q.2 false srv)).Nodup := by
  obtain ⟨hndST, hndID, hBuckets, hEntries⟩ := hInv
  have hid : s.deviceIdToServer.Nodup := (hndID : (keys _).Nodup).of_map _
  apply List.Nodup.map_on ?_ hid
  intro q1 hq1 q2 hq2 heq
  have husn1 := (hEntries q1 hq1).2.1
  have husn2 := (hEntries q2 hq2).2.1
  have hvars := congrArg SsdpMessage.vars heq
  simp only [advertiseServerMsg] at hvars
  have hst : q1.2.ServiceType = q2.2.ServiceType := by
    have := congrArg (fun l => (l.getD 1 ("", "")).2) hvars
    simpa using this
  have husneq : q1.2.usn = q2.2.usn := by
    have := congrArg (fun l => (l.getD 3 ("", "")).2) hvars
    simpa using this
  have hkey : q1.1 = q2.1 := by
    rw [husn1, husn2, hst] at husneq
    exact usn_append_cancel husneq
  have hval : q1.2 = q2.2 := by
    have h1 : mapLookup s.deviceIdToServer q1.1 = some q1.2 := mem_mapLookup hndID (by
      rcases q1 with ⟨k, v⟩; exact hq1)
    have h2 : mapLookup s.deviceIdToServer q2.1 = some q2.2 := mem_mapLookup hndID (by
      rcases q2 with ⟨k, v⟩; exact hq2)
    rw [hkey, h2] at h1
    exact (Option.some.inj h1).symm
  rcases q1 with ⟨k1, v1⟩
  rcases q2 with ⟨k2, v2⟩
  simp only [Prod.mk.injEq]
  exact ⟨hkey, hval⟩

/-! ## Claim C9 -/

/-- C9 (amended): after any sequence of `AdvertiseServer` / `RemoveServer`
operations starting from a fresh engine, in which every `AdvertiseServer`
call uses a device UUID not currently registered, the registry is
consistent: exactly one entry per device UUID, an advertisement is in the
bucket for its service type iff it is in the device-UUID index, and every
advertisement's USN equals `"uuid:" + deviceUuid + "::" + serviceType`. -/
theorem c9_registry_consistency (lp : Bool) (ops : List RegistryOp)
    (h : freshOps (newSsdp lp) ops = true) :
    registryConsistent (applyOps (newSsdp lp) ops) :=
  registryInv_registryConsistent
    (registryInv_applyOps ops _ (registryInv_newSsdp lp) h)

/-- C9 witness: a concrete fresh sequence (two advertisements, one removal)
satisfies the amended claim. -/
theorem c9_registry_consistency_witness :
    freshOps (newSsdp true)
        [RegistryOp.advertise ⟨"urn:t1", "u1", "http://h/1", 1800, "", false, false⟩,
         RegistryOp.advertise ⟨"urn:t1", "u2", "http://h/2", 1800, "", false, false⟩,
         RegistryOp.remove "u1"] = true ∧
      registryConsistent (applyOps (newSsdp true)
        [RegistryOp.advertise ⟨"urn:t1", "u1", "http://h/1", 1800, "", false, false⟩,
         RegistryOp.advertise ⟨"urn:t1", "u2", "http://h/2", 1800, "", false, false⟩,
         RegistryOp.remove "u1"]) :=
  ⟨by decide,
   c9_registry_consistency true
     [RegistryOp.advertise ⟨"urn:t1", "u1", "http://h/1", 1800, "", false, false⟩,
      RegistryOp.advertise ⟨"urn:t1", "u2", "http://h/2", 1800, "", false, false⟩,
      RegistryOp.remove "u1"] (by decide)⟩

/-- C9 counterexample: advertising the same device UUID twice (under two
service types) leaves an advertisement in a service-type bucket that is
absent from the device-UUID index, so the claimed invariant fails for
unrestricted operation sequences. -/
theorem c9_registry_consistency_cex :
    ¬ registryConsistent (applyOps (newSsdp true)
      [RegistryOp.advertise ⟨"urn:t1", "u", "l1", 1, "", false, false⟩,
       RegistryOp.advertise ⟨"urn:t2", "u", "l2", 1, "", false, false⟩]) := by
  intro h
  obtain ⟨h1, -, -⟩ := h
  exact absurd
    (h1 ⟨"urn:t1", "u", "l1", 1, "uuid:u::urn:t1", true, true⟩ (by decide))
    (by decide)

/-! ## Claim C6 -/

/-- C6: the M-SEARCH matching policy over a well-formed registry:
`ssdp:all` matches every registered advertisement exactly once; otherwise a
device-UUID hit answers with exactly that advertisement; otherwise a
service-type hit answers once per bucket member; otherwise nothing. -/
theorem c6_msearch_matching (s : Ssdp) (st : String) (hInv : RegistryInv s) :
    (st = "ssdp:all" →
      msearchResponders s st = allAdvertisements s ∧
      ∀ a ∈ allAdvertisements s, (msearchResponders s st).count a = 1) ∧
    (st ≠ "ssdp:all" → ∀ d, mapLookup s.deviceIdToServer st = some d →
      msearchResponders s st = [d]) ∧
    (st ≠ "ssdp:all" → mapLookup s.deviceIdToServer st = none →
      ∀ g, mapLookup s.advertisableServers st = some g →
        msearchResponders s st = g ∧ ∀ a ∈ g, (msearchResponders s st).count a = 1) ∧
    (st ≠ "ssdp:all" → mapLookup s.deviceIdToServer st = none →
      mapLookup s.advertisableServers st = none → msearchResponders s st = []) := by
  refine ⟨?_, ?_, ?_, ?_⟩
  · intro hall
    have heq : msearchResponders s st = allAdvertisements s := by
      rw [msearchResponders, if_pos hall]
    refine ⟨heq, ?_⟩
    intro a ha
    rw [heq]
    exact List.count_eq_one_of_mem (allAdvertisements_nodup hInv) ha
  · intro hne d hd
    rw [msearchResponders, if_neg hne, hd]
  · intro hne hdnone g hg
    have heq : msearchResponders s st = g := by
      rw [msearchResponders, if_neg hne, hdnone, hg]
    refine ⟨heq, ?_⟩
    intro a ha
    rw [heq]
    have hgnodup : g.Nodup :=
      ((hInv.2.2.1 _ (mapLookup_mem hg)).2.1).of_map _
    exact List.count_eq_one_of_mem hgnodup ha
  · intro hne hdnone hgnone
    rw [msearchResponders, if_neg hne, hdnone, hgnone]

/-- C6 witness: the matching policy evaluated on a concrete two-server
registry for `ssdp:all`. -/
theorem c6_msearch_matching_witness :
    msearchResponders
        (applyOps (newSsdp true)
          [RegistryOp.advertise ⟨"urn:t1", "u1", "http://h/1", 1800, "", false, false⟩,
           RegistryOp.advertise ⟨"urn:t1", "u2", "http://h/2", 1800, "", false, false⟩])
        "ssdp:all" =
      allAdvertisements
        (applyOps (newSsdp true)
          [RegistryOp.advertise ⟨"urn:t1", "u1", "http://h/1", 1800, "", false, false⟩,
           RegistryOp.advertise ⟨"urn:t1", "u2", "http://h/2", 1800, "", false, false⟩]) :=
  ((c6_msearch_matching _ "ssdp:all"
      (registryInv_applyOps _ _ (registryInv_newSsdp true) (by decide))).1 rfl).1

/-! ## Claim C7 -/

/-- C7: between `Stop` being called (on a state with an open socket) and
returning, exactly one byebye NOTIFY carrying only `HOST`, `NT`,
`NTS: ssdp:byebye` and `USN` (the advertisement's USN) is enqueued per
registered advertisement, and both timers of each are stopped. -/
theorem c7_stop_byebye (s : Ssdp) (srv : String) (hInv : RegistryInv s)
    (hSock : s.socketOpen = true) :
    (stopOp s srv).2 =
      s.deviceIdToServer.map (fun q => advertiseServerMsg q.2 false srv) ∧
    (∀ q ∈ s.deviceIdToServer,
      (stopOp s srv).2.count (advertiseServerMsg q.2 false srv) = 1 ∧
      advertiseServerMsg q.2 false srv =
        { head := "NOTIFY"
          vars := [("HOST", "239.255.255.250:1900"), ("NT", q.2.ServiceType),
                   ("NTS", "ssdp:byebye"), ("USN", q.2.usn)]
          isResponse := false }) ∧
    (stopOp s srv).1.deviceIdToServer =
      s.deviceIdToServer.map (fun q => (q.1, stopTimers q.2)) ∧
    (∀ q ∈ (stopOp s srv).1.deviceIdToServer,
      q.2.lastTimerRunning = false ∧ q.2.last3sTimerRunning = false) := by
  obtain ⟨hmsgs, hids⟩ := stopOp_of_socketOpen srv hInv hSock
  refine ⟨hmsgs, ?_, hids, ?_⟩
  · intro q hq
    constructor
    · rw [hmsgs]
      exact List.count_eq_one_of_mem (stopMessages_nodup srv hInv)
        (List.mem_map_of_mem _ hq)
    · simp [advertiseServerMsg]
  · intro q hq
    rw [hids] at hq
    rcases List.mem_map.1 hq with ⟨q0, hq0, hq0e⟩
    rw [← hq0e]
    simp [stopTimers]

/-- C7 witness: `Stop` on a concrete one-advertisement engine enqueues
exactly the advertisement's byebye. -/
theorem c7_stop_byebye_witness :
    (stopOp
        (applyOps (newSsdp true)
          [RegistryOp.advertise ⟨"urn:t1", "u1", "http://h/1", 1800, "", false, false⟩])
        "srv").2 =
      (applyOps (newSsdp true)
          [RegistryOp.advertise ⟨"urn:t1", "u1", "http://h/1", 1800, "", false, false⟩]).deviceIdToServer.map
        (fun q => advertiseServerMsg q.2 false "srv") :=
  (c7_stop_byebye _ "srv"
      (registryInv_applyOps _ _ (registryInv_newSsdp true) (by decide)) (by decide)).1

/-! ## Claim C8 -/

/-- C8: once `Stop` has marked the engine not running, `AdvertiseServer`
and `RemoveServer` leave the whole state (registry indexes and listen
filter included) unchanged, and `ListenFor` returns the not-running error,
adds nothing to the filter, and enqueues no M-SEARCH. -/
theorem c8_api_after_stop (s : Ssdp) (srv : String) (ads : AdvertisableServer)
    (u t : String) :
    advertiseServerOp (stopOp s srv).1 ads = (stopOp s srv).1 ∧
    removeServerOp (stopOp s srv).1 u = (stopOp s srv).1 ∧
    listenForOp (stopOp s srv).1 t =
      ((stopOp s srv).1, some "Not running. Can't listen", []) := by
  have h := stopOp_isRunning s srv
  refine ⟨?_, ?_, ?_⟩
  · rw [advertiseServerOp, if_pos (by simp [h])]
  · rw [removeServerOp, if_pos (by simp [h])]
  · rw [listenForOp, if_pos (by simp [h])]

/-! ## Claim C5: device-id extraction -/

theorem splitOnChar_no_sep {sep : Char} {xs : List Char} (h : sep ∉ xs) :
    splitOnChar sep xs = [xs] := by
  induction xs with
  | nil => rfl
  | cons c rest ih =>
    have hc : ¬ c = sep := fun he => h (he ▸ List.mem_cons_self _ _)
    have hrest : sep ∉ rest := fun hm => h (List.mem_cons_of_mem _ hm)
    rw [splitOnChar, if_neg hc, ih hrest]

theorem splitOnChar_append_sep {sep : Char} {xs ys : List Char} (h : sep ∉ xs) :
    splitOnChar sep (xs ++ sep :: ys) = xs :: splitOnChar sep ys := by
  induction xs with
  | nil => simp [splitOnChar]
  | cons c rest ih =>
    have hc : ¬ c = sep := fun he => h (he ▸ List.mem_cons_self _ _)
    have hrest : sep ∉ rest := fun hm => h (List.mem_cons_of_mem _ hm)
    rw [List.cons_append, splitOnChar, if_neg hc, ih hrest]

theorem splitOnChar_ne_nil (sep : Char) (xs : List Char) :
    splitOnChar sep xs ≠ [] := by
  cases xs with
  | nil => simp [splitOnChar]
  | cons c rest =>
    rw [splitOnChar]
    by_cases hc : c = sep
    · simp [hc]
    · rw [if_neg hc]
      cases hr : splitOnChar sep rest <;> simp

/-- C5: device-id extraction from the USN. In general: with more than two
colon-separated parts whose first is `uuid`, the id is the second part; in
every other case (fewer parts, wrong first part, empty USN) it is empty.
In particular `uuid:X::Y` yields `X` and `uuid:X` yields `""`. -/
theorem c5_device_id_extraction (x y u : String)
    (hx : ':' ∉ x.data) (hy : ':' ∉ y.data) :
    deviceIdFromUsn ("uuid:" ++ x ++ "::" ++ y) = x ∧
    deviceIdFromUsn ("uuid:" ++ x) = "" ∧
    (2 < (splitOnChar ':' u.data).length →
      (splitOnChar ':' u.data).getD 0 [] = "uuid".data →
      deviceIdFromUsn u = ⟨(splitOnChar ':' u.data).getD 1 []⟩) ∧
    ((splitOnChar ':' u.data).length ≤ 2 → deviceIdFromUsn u = "") ∧
    ((splitOnChar ':' u.data).getD 0 [] ≠ "uuid".data → deviceIdFromUsn u = "") ∧
    deviceIdFromUsn "" = "" := by
  have huuid : ':' ∉ "uuid".data := by decide
  refine ⟨?_, ?_, ?_, ?_, ?_, rfl⟩
  · have hdata : ("uuid:" ++ x ++ "::" ++ y).data =
        "uuid".data ++ ':' :: (x.data ++ ':' :: (':' :: y.data)) := by
      simp only [String.data_append,
        show "uuid:".data = "uuid".data ++ [':'] from rfl,
        show "::".data = [':'] ++ [':'] from rfl, List.append_assoc]
      simp
    have hsplit : splitOnChar ':' ("uuid:" ++ x ++ "::" ++ y).data =
        ["uuid".data, x.data, [], y.data] := by
      rw [hdata, splitOnChar_append_sep huuid, splitOnChar_append_sep hx]
      rw [splitOnChar, if_pos rfl, splitOnChar_no_sep hy]
    rw [deviceIdFromUsn, if_pos (by
      rw [String.length, hdata]
      simp)]
    rw [hsplit]
    simp
  · have hdata : ("uuid:" ++ x).data = "uuid".data ++ ':' :: x.data := by
      simp only [String.data_append, show "uuid:".data = "uuid".data ++ [':'] from rfl]
      simp
    have hsplit : splitOnChar ':' ("uuid:" ++ x).data = ["uuid".data, x.data] := by
      rw [hdata, splitOnChar_append_sep huuid, splitOnChar_no_sep hx]
    by_cases hlen : ("uuid:" ++ x).length > 0
    · rw [deviceIdFromUsn, if_pos hlen, hsplit]
      simp
    · rw [deviceIdFromUsn, if_neg hlen]
  · intro hl hu
    have hne : u.data ≠ [] := by
      intro hnil
      rw [hnil] at hl
      simp [splitOnChar] at hl
    rw [deviceIdFromUsn, if_pos (by
      rw [String.length]
      exact List.length_pos.2 hne)]
    rw [if_pos hl, if_pos hu]
  · intro hl
    rw [deviceIdFromUsn]
    by_cases hlen : u.length > 0
    · rw [if_pos hlen, if_neg (by omega)]
    · rw [if_neg hlen]
  · intro hu
    rw [deviceIdFromUsn]
    by_cases hlen : u.length > 0
    · rw [if_pos hlen]
      by_cases hl : 2 < (splitOnChar ':' u.data).length
      · rw [if_pos hl, if_neg hu]
      · rw [if_neg hl]
    · rw [if_neg hlen]

/-- C5 witness: the concrete USNs from the specification. -/
theorem c5_device_id_extraction_witness :
    deviceIdFromUsn ("uuid:" ++ "X" ++ "::" ++ "Y") = "X" ∧
    deviceIdFromUsn ("uuid:" ++ "X") = "" ∧
    deviceIdFromUsn "" = "" := by
  have h := c5_device_id_extraction "X" "Y" "abc" (by decide) (by decide)
  exact ⟨h.1, h.2.1, h.2.2.2.2.2⟩

/-! ## Claim C4: `max-age` round trip -/

theorem isDigitChar_ne {c : Char} (h : isDigitChar c = true) :
    c ≠ 'm' ∧ c ≠ '+' ∧ c ≠ '-' := by
  refine ⟨?_, ?_, ?_⟩ <;> intro he <;> subst he <;> exact absurd h (by decide)

theorem maxAgeHere_eq_nil {c : Char} (l : List Char) (h : c ≠ 'm') :
    maxAgeHere (c :: l) = [] := by
  rw [maxAgeHere, if_neg]
  intro hpre
  rw [show ("max-age=".data) = 'm' :: "ax-age=".data from rfl] at hpre
  rw [ List.isPrefixOf_iff_prefix] at hpre
  rcases hpre with ⟨t, ht⟩
  rw [List.cons_append] at ht
  exact h (List.head_eq_of_cons_eq ht.symm)

theorem maxAgeCaptures_append (xs ys : List Char) :
    ∃ zs, maxAgeCaptures (xs ++ ys) = zs ++ maxAgeCaptures ys := by
  induction xs with
  | nil => exact ⟨[], rfl⟩
  | cons c rest ih =>
    rcases ih with ⟨zs, hzs⟩
    refine ⟨maxAgeHere (c :: (rest ++ ys)) ++ zs, ?_⟩
    rw [List.cons_append, maxAgeCaptures, hzs, List.append_assoc]

theorem maxAgeCaptures_no_m {xs : List Char} (ys : List Char)
    (h : ∀ c ∈ xs, c ≠ 'm') :
    maxAgeCaptures (xs ++ ys) = maxAgeCaptures ys := by
  induction xs with
  | nil => rfl
  | cons c rest ih =>
    rw [List.cons_append, maxAgeCaptures,
      maxAgeHere_eq_nil _ (h c (List.mem_cons_self _ _)),
      List.nil_append]
    exact ih fun d hd => h d (List.mem_cons_of_mem _ hd)

theorem maxAgeCaptures_exact {ds s' : List Char}
    (hds : ds ≠ []) (hdig : ∀ c ∈ ds, isDigitChar c = true)
    (hs1 : s'.takeWhile isDigitChar = [])
    (hs2 : maxAgeCaptures s' = []) :
    maxAgeCaptures ("max-age=".data ++ (ds ++ s')) = [ds] := by
  have hhere : maxAgeHere ("max-age=".data ++ (ds ++ s')) = [ds] := by
    rw [maxAgeHere, if_pos (by
      rw [ List.isPrefixOf_iff_prefix]
      exact List.prefix_append _ _)]
    rw [List.drop_left' (by rfl)]
    rw [List.takeWhile_append_of_pos hdig, hs1, List.append_nil]
    rw [if_neg hds]
  have htail : maxAgeCaptures ("ax-age=".data ++ (ds ++ s')) = [] := by
    rw [show ("ax-age=".data ++ (ds ++ s')) = ("ax-age=".data ++ ds) ++ s' by
      rw [List.append_assoc]]
    have hax : ∀ c ∈ "ax-age=".data, c ≠ 'm' := by decide
    rw [maxAgeCaptures_no_m s' (by
      intro c hc
      rcases List.mem_append.1 hc with hc1 | hc1
      · exact hax c hc1
      · exact (isDigitChar_ne (hdig c hc1)).1)]
    exact hs2
  calc maxAgeCaptures ("max-age=".data ++ (ds ++ s'))
      = maxAgeHere ("max-age=".data ++ (ds ++ s')) ++
          maxAgeCaptures ("ax-age=".data ++ (ds ++ s')) := by
        rw [show ("max-age=".data ++ (ds ++ s')) =
          'm' :: ("ax-age=".data ++ (ds ++ s')) from rfl]
        rw [maxAgeCaptures]
    _ = [ds] := by rw [hhere, htail, List.append_nil]

theorem goParseIntClamp_small {n : Nat} (h : n < 2 ^ 63) :
    goParseIntClamp (n : Int) = ((n : Int), false) := by
  have h0 : (0 : Int) ≤ (n : Int) := Int.natCast_nonneg _
  have h1 : (n : Int) < 2 ^ 63 := by exact_mod_cast h
  rw [goParseIntClamp, if_neg (by omega), if_neg (by omega)]

theorem goParseInt_digits {ds : List Char}
    (hds : ds ≠ []) (hdig : ∀ c ∈ ds, isDigitChar c = true)
    (hlt : digitsToNat ds < 2 ^ 63) :
    goParseInt ⟨ds⟩ = ((digitsToNat ds : Int), false) := by
  rcases hd : ds with _ | ⟨c, rest⟩
  · exact absurd hd hds
  subst hd
  have hc : isDigitChar c = true := hdig c (List.mem_cons_self _ _)
  have hcp : ¬ (c = '+' ∨ c = '-') := by
    rintro (he | he)
    · exact (isDigitChar_ne hc).2.1 he
    · exact (isDigitChar_ne hc).2.2 he
  have hcm : ¬ (c = '-') := (isDigitChar_ne hc).2.2
  rw [goParseInt]
  simp only [show (⟨c :: rest⟩ : String).data = c :: rest from rfl, List.headD_cons]
  rw [if_neg hcp, goParseIntAux,
    if_neg (by
      push_neg
      refine ⟨by simp, ?_⟩
      rw [List.all_eq_true]
      exact hdig)]
  rw [if_neg (by simpa using hcm)]
  exact goParseIntClamp_small hlt

/-- C4 (amended): for digit strings whose value fits a 64-bit signed
integer, a `Cache-Control` value containing `max-age=<digits>` (with no
digit adjoining and no later match) parses to exactly that value; an absent
header (`""`) or one without a `max-age=<digits>` match yields `-1`; and
both the alive-event parser and the response parser read `MaxAge` through
this same extraction. -/
theorem c4_max_age_round_trip (p s : String) (ds : List Char)
    (hds : ds ≠ []) (hdig : ∀ c ∈ ds, isDigitChar c = true)
    (hs1 : s.data.takeWhile isDigitChar = [])
    (hs2 : maxAgeCaptures s.data = [])
    (hlt : digitsToNat ds < 2 ^ 63) :
    parseMaxAge (p ++ ("max-age=" ++ (⟨ds⟩ : String) ++ s)) = (digitsToNat ds : Int) ∧
    parseMaxAge "" = -1 ∧
    (∀ cc : String, maxAgeCaptures cc.data = [] → parseMaxAge cc = -1) ∧
    (∀ st hs m, SsdpEvent.alive m ∈ notifyOp st hs →
      m.MaxAge = parseMaxAge (headerGet hs "CACHE-CONTROL")) ∧
    (∀ st hs r, parseResponseOp st hs = some r →
      r.MaxAge = parseMaxAge (headerGet hs "CACHE-CONTROL")) := by
  refine ⟨?_, rfl, ?_, ?_, ?_⟩
  · obtain ⟨zs, hzs⟩ := maxAgeCaptures_append p.data ("max-age=".data ++ (ds ++ s.data))
    have hdata : (p ++ ("max-age=" ++ (⟨ds⟩ : String) ++ s)).data =
        p.data ++ ("max-age=".data ++ (ds ++ s.data)) := by
      simp [List.append_assoc]
    have hne : p ++ ("max-age=" ++ (⟨ds⟩ : String) ++ s) ≠ "" := by
      intro he
      have h2 := congrArg String.data he
      rw [hdata] at h2
      simp at h2
    have hcap : (maxAgeCaptures (p ++ ("max-age=" ++ (⟨ds⟩ : String) ++ s)).data).getLast?
        = some ds := by
      rw [hdata, hzs, maxAgeCaptures_exact hds hdig hs1 hs2, List.getLast?_concat]
    rw [parseMaxAge, if_neg hne, hcap]
    simp [goParseInt_digits hds hdig hlt]
  · intro cc hcap
    rw [parseMaxAge]
    by_cases he : cc = ""
    · rw [if_pos he]
    · rw [if_neg he, hcap]
      rfl
  · intro st hs m hm
    rw [notifyOp] at hm
    split_ifs at hm <;> simp at hm
    obtain ⟨-, -, hm3⟩ := hm
    by_cases h3 : asciiLower (headerGet hs "NTS") = "ssdp:alive"
    · rw [if_pos h3, List.mem_singleton] at hm3
      injection hm3 with h4
      subst h4
      rfl
    · rw [if_neg h3] at hm3
      by_cases h4 : asciiLower (headerGet hs "NTS") = "ssdp:byebye"
      · rw [if_pos h4, List.mem_singleton] at hm3
        exact absurd hm3 (by simp)
      · rw [if_neg h4] at hm3
        simp at hm3
  · intro st hs r hr
    rw [parseResponseOp] at hr
    split_ifs at hr
    have h5 := Option.some.inj hr
    rw [← h5]

/-- C4 witness: `max-age=3600` inside a larger `Cache-Control` value parses
to 3600. -/
theorem c4_max_age_round_trip_witness :
    parseMaxAge ("public, " ++ ("max-age=" ++ (⟨"3600".data⟩ : String) ++ ", huh")) =
      (3600 : Int) :=
  ((c4_max_age_round_trip "public, " ", huh" "3600".data (by decide) (by decide)
      (by decide) (by decide) (by decide)).1).trans (by decide)

/-- C4 counterexample: the claim quantifies over every `n ≥ 0`, but for
`n = 2^63 = 9223372036854775808` (out of 64-bit signed range, so
`strconv.ParseInt` fails) the parser yields `-1`, not `n`. -/
theorem c4_max_age_round_trip_cex :
    parseMaxAge "max-age=9223372036854775808" ≠ (9223372036854775808 : Int) ∧
    parseMaxAge "max-age=9223372036854775808" = -1 ∧
    digitsToNat "9223372036854775808".data = 2 ^ 63 := by
  refine ⟨?_, by rfl, by decide⟩
  rw [show parseMaxAge "max-age=9223372036854775808" = -1 from rfl]
  decide

/-! ## Claim C1: listen filter -/

/-- C1 evaluation at the failing input: with the listen filter containing
only `urn:a`, an incoming `NOTIFY` `ssdp:alive` with `NT: urn:b` is still
dispatched to the observer — `notify` never consults
`listenSearchTargets` — contradicting the claimed (and documented)
filtering. -/
theorem c1_listen_filter_eval :
    notifyOp { newSsdp true with listenSearchTargets := ["urn:a"] }
        [("NTS", "ssdp:alive"), ("NT", "urn:b"), ("USN", "uuid:u::urn:b")] =
      [SsdpEvent.alive
        { SearchType := "urn:b", DeviceId := "u", Usn := "uuid:u::urn:b",
          Location := "", MaxAge := -1, Server := "" }] ∧
    "urn:b" ∉
      ({ newSsdp true with listenSearchTargets := ["urn:a"] } : Ssdp).listenSearchTargets :=
  ⟨by rfl, by decide⟩

/-! ## Claim C2: M-SEARCH delay -/

/-- C2 evaluation at the failing input: the `MX` value `3` parses
successfully, yet the computed sleep is 0 seconds, because `inMSearch`
assigns the parse result only when `err != nil` (ssdp.go:533); an
unparsable `MX` also yields 0. -/
theorem c2_mx_delay_eval :
    computeMx "3" = 0 ∧
    computeMx "notanumber" = 0 ∧
    inMSearch (newSsdp true) "urn:x" "3" = some (0, []) :=
  ⟨by rfl, by rfl, by rfl⟩

/-! ## Claim C3: ST unquoting -/

/-- C3 evaluation at the failing input: for `ST = "abc"` in quotes the code
slices `st[1:len(st)-2]`, yielding `ab` — the first and last TWO characters
are removed, not the quotes alone; an unquoted ST passes unchanged. -/
theorem c3_st_unquote_eval :
    unquoteST "\"abc\"".data = some "ab".data ∧
    some "ab".data ≠ some "abc".data ∧
    unquoteST "abc".data = some "abc".data :=
  ⟨by rfl, by decide, by rfl⟩

/-! ## Claim C10: panic on short quoted ST -/

/-- C10: for `ST = "` both quote tests inspect the single character at
index 0 and pass, and the slice `st[1:len(st)-2]` has a negative upper
bound, so `inMSearch` panics (aborting the datagram) instead of discarding
it; the two-character `ST = ""` takes the same out-of-range slice
(upper bound 0 below the lower index 1). -/
theorem c10_st_unquote_panic (s : Ssdp) :
    ("\"".data.getD 0 ' ' = '"' ∧
      "\"".data.getD ("\"".data.length - 1) ' ' = '"' ∧
      "\"".data.length - 1 = 0) ∧
    (("\"".data.length : Int) - 2 < 0) ∧
    unquoteST "\"".data = none ∧
    unquoteST "\"\"".data = none ∧
    inMSearch s "\"" "0" = none ∧
    inMSearch s "\"\"" "0" = none := by
  refine ⟨by decide, by decide, by rfl, by rfl, ?_, ?_⟩
  · rw [inMSearch, show unquoteST "\"".data = none from rfl]
  · rw [inMSearch, show unquoteST "\"\"".data = none from rfl]

end Gossdp
